import Mathlib

/-!
Verification of the repository's `CargoService` — a 0/1-knapsack solver
implemented with dynamic programming in a NestJS backend
(`cargo.service.ts`).

The shallow embedding below mirrors the TypeScript source:

* JS numbers on the inputs (weights, profits, capacity) are modelled as `ℚ`;
  `Math.floor` is `Int.floor`; `Math.round` rounds half toward +∞.
* The DP table `dp[i][w]` is modelled as the function `CargoService.dp`
  whose defining equation is exactly the table-fill recurrence of the code;
  the reconstruction loop becomes the recursive `CargoService.reconstruct`.
* Exceptions (`BadRequestException` raised by `validateProblem`, and the
  JavaScript `RangeError` thrown by `Array(capacity + 1)` when
  `capacity + 1` is not a non-negative integer) are modelled with `Except`.
  A method that throws returns `Except.error`; validation errors and the
  array-allocation `RangeError` are kept distinct in `SolveError`.
-/

/-- A cargo item as in the `KnapsackProblemDto` items array:
identifier, display name, weight and profit (JS numbers, modelled as `ℚ`). -/
structure Item where
  id : String
  name : String
  weight : ℚ
  profit : ℚ
deriving DecidableEq

/-- The knapsack problem DTO: a capacity and an ordered item list. -/
structure KnapsackProblemDto where
  capacity : ℚ
  items : List Item
deriving DecidableEq

/-- The solution DTO returned by `CargoService.solve` and
`CargoService.solveWithItemLimit`.  The `selectedItems` entries carry the
same four fields as the input items (the code copies id, name, weight,
profit), so they are modelled with `Item` again. -/
structure KnapsackSolutionDto where
  selectedItemIds : List String
  selectedItems : List Item
  totalProfit : ℚ
  totalWeight : ℚ
  remainingCapacity : ℚ
  utilizationPercentage : ℚ
  method : String
deriving DecidableEq

/-- Failure modes of a solve call: a `BadRequestException` thrown during
validation (or by the `maxItems` guard), or the JavaScript `RangeError`
thrown by `Array(len)` when `len` is not a valid array length. -/
inductive SolveError where
  | badRequest (msg : String)
  | rangeError (msg : String)
deriving DecidableEq

/-- Placeholder item for out-of-range list reads (never reached on the
index ranges the code actually uses). -/
def dfltItem : Item := { id := "", name := "", weight := 0, profit := 0 }

namespace CargoService

/-- JavaScript `Math.round`: rounds half toward +∞. -/
def jsRound (q : ℚ) : ℤ := ⌊q + 1 / 2⌋

/-- Model of `Math.floor(currentItem.weight)` — the integer weight used on the DP
grid. -/
def floorWeight (it : Item) : ℤ := ⌊it.weight⌋

/-- The floored weight as a natural number index decrement.  For validated
items (`weight > 0`) this coincides with `floorWeight`. -/
def wNat (it : Item) : ℕ := (floorWeight it).toNat

/-- The DP table of `solve`:
`dp[i][w]` = maximum profit using the first `i` items with budget `w`.
The defining equation is the table-fill loop of the source:
`dp[i][w] = weight ≤ w ? max(dp[i-1][w], dp[i-1][w-weight] + profit) : dp[i-1][w]`
with `weight = Math.floor(items[i-1].weight)`.  (If a validated weight is
positive its floor is non-negative, so `(floorWeight it).toNat` is the same
subtraction the code performs.) -/
def dp (items : List Item) : ℕ → ℕ → ℚ
  | 0, _ => 0
  | i + 1, w =>
    let it := items.getD i dfltItem
    if floorWeight it ≤ (w : ℤ) then
      max (dp items i w) (dp items i (w - wNat it) + it.profit)
    else
      dp items i w

/-- The backtracking reconstruction loop of `solve`:
walk `i` from `n` down to `1` while `w > 0`; whenever
`dp[i][w] !== dp[i-1][w]` record `items[i-1]` and subtract its floored
weight from `w`.  The returned list is in the order the code pushes the
items (item with the largest index first). -/
def reconstruct (items : List Item) : ℕ → ℕ → List Item
  | 0, _ => []
  | i + 1, w =>
    if w = 0 then []
    else if dp items (i + 1) w ≠ dp items i w then
      items.getD i dfltItem :: reconstruct items i (w - wNat (items.getD i dfltItem))
    else
      reconstruct items i w

/-- The per-item checks of `validateProblem` (`items.forEach`): weight must
be positive, profit non-negative; the first offending item (in order)
raises, with its index in the message. -/
def itemsCheck : ℕ → List Item → Option String
  | _, [] => none
  | index, item :: rest =>
    if item.weight ≤ 0 then
      some ("El peso del item " ++ toString index ++ " debe ser mayor a cero")
    else if item.profit < 0 then
      some ("El beneficio del item " ++ toString index ++ " no puede ser negativo")
    else
      itemsCheck (index + 1) rest

/-- Model of `CargoService.validateProblem`: returns the message of the
`BadRequestException` it would throw, or `none` when the problem is well
formed.  `new Set(ids).size` is the number of distinct ids, i.e.
`ids.dedup.length`. -/
def validateProblem (p : KnapsackProblemDto) : Option String :=
  if p.capacity ≤ 0 then
    some "La capacidad debe ser mayor a cero"
  else if p.items.length = 0 then
    some "Debe haber al menos un item disponible"
  else
    match itemsCheck 0 p.items with
    | some msg => some msg
    | none =>
      if (p.items.map Item.id).length ≠ (p.items.map Item.id).dedup.length then
        some "Los IDs de los items deben ser únicos"
      else
        none

/-- The successful branch of `solve`, after validation and after the DP
table has been allocated for an integer capacity `capNat` (so
`capacity = capNat` as rationals). -/
def solveCore (capNat : ℕ) (capacity : ℚ) (items : List Item) : KnapsackSolutionDto :=
  let n := items.length
  let selected := reconstruct items n capNat
  let totalWeight := (selected.map Item.weight).sum
  { selectedItemIds := selected.map Item.id
    selectedItems := selected
    totalProfit := dp items n capNat
    totalWeight := totalWeight
    remainingCapacity := capacity - totalWeight
    utilizationPercentage := (jsRound (totalWeight / capacity * 100 * 100) : ℚ) / 100
    method := "Programación Dinámica - Mochila 0/1" }

/-- Model of `CargoService.solve`.  First `validateProblem` (throw = `.error`), then
`Array(capacity + 1)`: in JavaScript this throws
`RangeError: Invalid array length` unless `capacity + 1` is a non-negative
integer, i.e. (capacity being validated positive) unless the capacity is an
integer — the code never floors the capacity itself.  On an integer
capacity the DP, reconstruction and result assembly run as in
`solveCore`. -/
def solve (p : KnapsackProblemDto) : Except SolveError KnapsackSolutionDto :=
  match validateProblem p with
  | some msg => .error (.badRequest msg)
  | none =>
    if p.capacity.den = 1 then
      .ok (solveCore p.capacity.num.toNat p.capacity p.items)
    else
      .error (.rangeError "Invalid array length")

/-- Model of `CargoService.optimizeMultipleScenarios`:
`problems.map((problem) => this.solve(problem))` — a JS `map` whose callback
can throw, so the whole call returns the per-problem solutions in order, or
propagates the first exception: exactly `mapM` over `Except`. -/
def optimizeMultipleScenarios (problems : List KnapsackProblemDto) :
    Except SolveError (List KnapsackSolutionDto) :=
  problems.mapM solve

/-- The three-dimensional DP table of `solveWithItemLimit`:
`dpLimit[i][w][k]` = maximum profit using the first `i` items, budget `w`,
and at most `k` selected items.  Defining equation from the source:
`dp[i][w][k] = (weight ≤ w && k > 0) ? max(dp[i-1][w][k], dp[i-1][w-weight][k-1] + profit) : dp[i-1][w][k]`. -/
def dpLimit (items : List Item) : ℕ → ℕ → ℕ → ℚ
  | 0, _, _ => 0
  | i + 1, w, k =>
    let it := items.getD i dfltItem
    if floorWeight it ≤ (w : ℤ) ∧ 0 < k then
      max (dpLimit items i w k) (dpLimit items i (w - wNat it) (k - 1) + it.profit)
    else
      dpLimit items i w k

/-- The reconstruction loop of `solveWithItemLimit`: walk `i` downward
while `w > 0 && k > 0`; on `dp[i][w][k] !== dp[i-1][w][k]` record the item,
subtract its floored weight from `w` and decrement `k`. -/
def reconstructLimit (items : List Item) : ℕ → ℕ → ℕ → List Item
  | 0, _, _ => []
  | i + 1, w, k =>
    if w = 0 ∨ k = 0 then []
    else if dpLimit items (i + 1) w k ≠ dpLimit items i w k then
      items.getD i dfltItem ::
        reconstructLimit items i (w - wNat (items.getD i dfltItem)) (k - 1)
    else
      reconstructLimit items i w k

/-- The successful branch of `solveWithItemLimit` (validation passed,
`maxItems > 0`, integer capacity).  Note `n = Math.min(items.length, maxItems)`:
only a prefix of the items enters the DP. -/
def solveLimitCore (capNat : ℕ) (capacity : ℚ) (items : List Item) (maxItems : ℕ) :
    KnapsackSolutionDto :=
  let n := min items.length maxItems
  let selected := reconstructLimit items n capNat maxItems
  let totalWeight := (selected.map Item.weight).sum
  { selectedItemIds := selected.map Item.id
    selectedItems := selected
    totalProfit := dpLimit items n capNat maxItems
    totalWeight := totalWeight
    remainingCapacity := capacity - totalWeight
    utilizationPercentage := (jsRound (totalWeight / capacity * 100 * 100) : ℚ) / 100
    method := "Programación Dinámica - Mochila 0/1 (máx " ++ toString maxItems ++ " items)" }

/-- Model of `CargoService.solveWithItemLimit`: `validateProblem`, then the
`maxItems <= 0` guard, then the DP (which again needs an integer capacity
to allocate `Array(capacity + 1)`).  `maxItems` reaches the code as an
integer count, modelled as `ℤ` so the `≤ 0` guard is meaningful; past the
guard it is the natural number `maxItems.toNat`. -/
def solveWithItemLimit (p : KnapsackProblemDto) (maxItems : ℤ) :
    Except SolveError KnapsackSolutionDto :=
  match validateProblem p with
  | some msg => .error (.badRequest msg)
  | none =>
    if maxItems ≤ 0 then
      .error (.badRequest "El límite de items debe ser mayor a cero")
    else if p.capacity.den = 1 then
      .ok (solveLimitCore p.capacity.num.toNat p.capacity p.items maxItems.toNat)
    else
      .error (.rangeError "Invalid array length")

end CargoService

/-- An input item extended with its efficiency, as built by
`calculateEfficiency` (`{ ...item, efficiency: item.profit / item.weight }`). -/
structure ItemWithEfficiency where
  id : String
  name : String
  weight : ℚ
  profit : ℚ
  efficiency : ℚ
deriving DecidableEq

namespace CargoService

/-- Model of `CargoService.calculateEfficiency`: annotate every item with
`profit / weight` and sort descending by efficiency.
`Array.prototype.sort` with comparator `(a, b) => b.efficiency - a.efficiency`
is a stable sort placing `a` no later than `b` whenever
`b.efficiency ≤ a.efficiency`; `List.mergeSort` with that relation is such
a stable sort. -/
def calculateEfficiency (p : KnapsackProblemDto) : List ItemWithEfficiency :=
  (p.items.map fun it =>
    { id := it.id, name := it.name, weight := it.weight, profit := it.profit
      efficiency := it.profit / it.weight : ItemWithEfficiency }).mergeSort
    fun a b => decide (b.efficiency ≤ a.efficiency)

/-- Sum of the (exact) profits of a list of items. -/
def profitSum (l : List Item) : ℚ := (l.map Item.profit).sum

/-- Sum of the floored weights of a list of items (as used on the DP grid). -/
def floorWeightSum (l : List Item) : ℕ := (l.map wNat).sum

/-- Modelled from the spec: the specification's subset formulation of the
knapsack optimum — the maximum, over all subsets (sublists) of the item
list whose summed floored weights fit in the budget `w`, of the subset's
summed profit.  `CargoService.solve`'s DP value is compared against this
definition (refinement direction of claim C1). -/
def subsetBest (items : List Item) (w : ℕ) : ℚ :=
  ((items.sublists.filter fun s => floorWeightSum s ≤ w).map profitSum).foldr max 0

/-- The preconditions of `solve` as stated by the specification: positive
capacity, non-empty items, positive weights, non-negative profits,
pairwise-distinct identifiers. -/
def ValidProblem (p : KnapsackProblemDto) : Prop :=
  0 < p.capacity ∧ p.items ≠ [] ∧
    (∀ it ∈ p.items, 0 < it.weight ∧ 0 ≤ it.profit) ∧ (p.items.map Item.id).Nodup

instance (p : KnapsackProblemDto) : Decidable (ValidProblem p) := by
  unfold ValidProblem; infer_instance

end CargoService

instance {ε α : Type} [DecidableEq ε] [DecidableEq α] : DecidableEq (Except ε α) :=
  fun a b =>
    match a, b with
    | .ok x, .ok y =>
      if h : x = y then .isTrue (by rw [h]) else .isFalse (by intro hc; cases hc; exact h rfl)
    | .error x, .error y =>
      if h : x = y then .isTrue (by rw [h]) else .isFalse (by intro hc; cases hc; exact h rfl)
    | .ok _, .error _ => .isFalse (by intro hc; cases hc)
    | .error _, .ok _ => .isFalse (by intro hc; cases hc)

/-! ### Concrete inputs used by the per-claim witnesses and counterexamples

Fractional constants are written with `mkRat` (the same rational values as
the decimal literals of the narrative, e.g. `mkRat 19 10 = 1.9`). -/

/-- Scenario A of the specification (claim C1): capacity 50,
items (w10, p100) and (w20, p150). -/
def exItemC1a : Item := { id := "1", name := "A", weight := 10, profit := 100 }

def exItemC1b : Item := { id := "2", name := "B", weight := 20, profit := 150 }

def exProblemC1 : KnapsackProblemDto := { capacity := 50, items := [exItemC1a, exItemC1b] }

def exSolutionC1 : KnapsackSolutionDto := CargoService.solveCore 50 50 [exItemC1a, exItemC1b]

/-- Claim C2: capacity 1 with a single valid item of weight 1.9. -/
def exItemC2 : Item := { id := "a", name := "A", weight := mkRat 19 10, profit := 5 }

def exProblemC2 : KnapsackProblemDto := { capacity := 1, items := [exItemC2] }

def exSolutionC2 : KnapsackSolutionDto := CargoService.solveCore 1 1 [exItemC2]

/-- Claim C3: capacity 1, items (w0.5, p5) then (w1, p10). -/
def exItemC3a : Item := { id := "b", name := "B", weight := mkRat 1 2, profit := 5 }

def exItemC3b : Item := { id := "a", name := "A", weight := 1, profit := 10 }

def exProblemC3 : KnapsackProblemDto := { capacity := 1, items := [exItemC3a, exItemC3b] }

def exSolutionC3 : KnapsackSolutionDto := CargoService.solveCore 1 1 [exItemC3a, exItemC3b]

/-- Claim C4 counterexample input: fractional capacity 0.5, valid item. -/
def exProblemC4 : KnapsackProblemDto :=
  { capacity := mkRat 1 2, items := [{ id := "a", name := "A", weight := mkRat 1 4, profit := 1 }] }

/-- Claim C4 witness input: a valid problem with integer capacity. -/
def exProblemC4v : KnapsackProblemDto :=
  { capacity := 5, items := [{ id := "a", name := "A", weight := 2, profit := 3 }] }

/-- Claim C5: capacity 10, items (w10, p100), (w5, p80), maxItems 1. -/
def exItemC5a : Item := { id := "1", name := "A", weight := 10, profit := 100 }

def exItemC5b : Item := { id := "2", name := "B", weight := 5, profit := 80 }

def exProblemC5 : KnapsackProblemDto := { capacity := 10, items := [exItemC5a, exItemC5b] }

def exSolutionC5 : KnapsackSolutionDto :=
  CargoService.solveLimitCore 10 10 [exItemC5a, exItemC5b] 1

def exPrefixProblemC5 : KnapsackProblemDto := { capacity := 10, items := [exItemC5a] }

def exPrefixSolutionC5 : KnapsackSolutionDto := CargoService.solveCore 10 10 [exItemC5a]

/-- Claim C6 (Scenario E): items (w10, p100) and (w5, p80). -/
def exItemC6a : Item := { id := "1", name := "A", weight := 10, profit := 100 }

def exItemC6b : Item := { id := "2", name := "B", weight := 5, profit := 80 }

/-- Claim C7: capacity 5 with one item (w2, p3), whose profit is raised to 7. -/
def exItemC7 : Item := { id := "x", name := "X", weight := 2, profit := 3 }

def exProblemC7 : KnapsackProblemDto := { capacity := 5, items := [exItemC7] }

def exSolutionC7 : KnapsackSolutionDto := CargoService.solveCore 5 5 [exItemC7]

/-- Claim C8: a two-item problem with positive weights. -/
def exProblemC8 : KnapsackProblemDto :=
  { capacity := 20
    items := [{ id := "1", name := "A", weight := 4, profit := 80 },
              { id := "2", name := "B", weight := 10, profit := 100 }] }

/-- Claim C10: a single-scenario list. -/
def exProblemC10 : KnapsackProblemDto :=
  { capacity := 3, items := [{ id := "1", name := "A", weight := 1, profit := 2 }] }

def exSolutionC10 : KnapsackSolutionDto :=
  CargoService.solveCore 3 3 [{ id := "1", name := "A", weight := 1, profit := 2 }]

namespace CargoService

/-! ### Basic lemmas about the DP recurrences -/

theorem floorWeight_le_iff (it : Item) (w : ℕ) :
    floorWeight it ≤ (w : ℤ) ↔ wNat it ≤ w := by
  rw [wNat, ← Int.toNat_le]

theorem dp_succ (items : List Item) (i w : ℕ) :
    dp items (i + 1) w =
      if wNat (items.getD i dfltItem) ≤ w then
        max (dp items i w)
          (dp items i (w - wNat (items.getD i dfltItem)) + (items.getD i dfltItem).profit)
      else dp items i w := by
  rw [dp]
  exact if_congr (floorWeight_le_iff _ w) rfl rfl

theorem dp_mono_succ (items : List Item) (i w : ℕ) :
    dp items i w ≤ dp items (i + 1) w := by
  rw [dp_succ]
  split
  · exact le_max_left _ _
  · exact le_rfl

theorem dp_nonneg (items : List Item) (i w : ℕ) : 0 ≤ dp items i w := by
  induction i with
  | zero => rw [dp]
  | succ i ih => exact ih.trans (dp_mono_succ items i w)

theorem dpLimit_succ (items : List Item) (i w k : ℕ) :
    dpLimit items (i + 1) w k =
      if wNat (items.getD i dfltItem) ≤ w ∧ 0 < k then
        max (dpLimit items i w k)
          (dpLimit items i (w - wNat (items.getD i dfltItem)) (k - 1) +
            (items.getD i dfltItem).profit)
      else dpLimit items i w k := by
  rw [dpLimit]
  exact if_congr (and_congr_left fun _ => floorWeight_le_iff _ w) rfl rfl

/-! ### Characterization of validation -/

theorem itemsCheck_none_iff (l : List Item) :
    ∀ idx, itemsCheck idx l = none ↔ ∀ it ∈ l, 0 < it.weight ∧ 0 ≤ it.profit := by
  induction l with
  | nil => intro idx; simp [itemsCheck]
  | cons a l ih =>
    intro idx
    rw [itemsCheck]
    by_cases hw : a.weight ≤ 0
    · simp only [if_pos hw]
      simp only [List.mem_cons]
      constructor
      · intro h; cases h
      · intro h
        exact absurd (h a (Or.inl rfl)).1 (not_lt.mpr hw)
    · rw [if_neg hw]
      by_cases hp : a.profit < 0
      · simp only [if_pos hp]
        simp only [List.mem_cons]
        constructor
        · intro h; cases h
        · intro h
          exact absurd (h a (Or.inl rfl)).2 (not_le.mpr hp)
      · rw [if_neg hp, ih (idx + 1)]
        simp only [List.mem_cons]
        constructor
        · rintro h it (rfl | hm)
          · exact ⟨not_le.mp hw, not_lt.mp hp⟩
          · exact h it hm
        · intro h it hm
          exact h it (Or.inr hm)

theorem validateProblem_none_iff (p : KnapsackProblemDto) :
    validateProblem p = none ↔ ValidProblem p := by
  rw [validateProblem, ValidProblem]
  by_cases hc : p.capacity ≤ 0
  · rw [if_pos hc]
    simp only [reduceCtorEq, false_iff, not_and]
    intro h; exact absurd h (not_lt.mpr hc)
  · rw [if_neg hc]
    by_cases hn : p.items.length = 0
    · rw [if_pos hn]
      rw [List.length_eq_zero] at hn
      simp [hn]
    · rw [if_neg hn]
      have hne : p.items ≠ [] := by intro he; exact hn (by simp [he])
      cases hchk : itemsCheck 0 p.items with
      | some msg =>
        simp only [reduceCtorEq, false_iff, not_and]
        intro _ hne hitems
        rw [← itemsCheck_none_iff p.items 0] at hitems
        rw [hchk] at hitems; cases hitems
      | none =>
        rw [itemsCheck_none_iff p.items 0] at hchk
        by_cases hd : (p.items.map Item.id).length ≠ (p.items.map Item.id).dedup.length
        · rw [if_pos hd]
          simp only [reduceCtorEq, false_iff, not_and]
          intro _ _ _ hnd
          exact hd (by rw [hnd.dedup])
        · rw [if_neg hd]
          push_neg at hd
          have hded : (p.items.map Item.id).dedup = p.items.map Item.id :=
            (List.dedup_sublist _).eq_of_length hd.symm
          have hnd : (p.items.map Item.id).Nodup := by
            rw [← hded]; exact List.nodup_dedup _
          simp only [true_iff]
          exact ⟨not_le.mp hc, hne, hchk, hnd⟩

theorem solve_ok_iff (p : KnapsackProblemDto) (s : KnapsackSolutionDto) :
    solve p = .ok s ↔
      validateProblem p = none ∧ p.capacity.den = 1 ∧
        s = solveCore p.capacity.num.toNat p.capacity p.items := by
  rw [solve]
  cases hv : validateProblem p with
  | some msg => simp
  | none =>
    by_cases hd : p.capacity.den = 1
    · simp [hd, eq_comm]
    · simp [hd]

theorem solveWithItemLimit_ok_iff (p : KnapsackProblemDto) (m : ℤ)
    (s : KnapsackSolutionDto) :
    solveWithItemLimit p m = .ok s ↔
      validateProblem p = none ∧ 0 < m ∧ p.capacity.den = 1 ∧
        s = solveLimitCore p.capacity.num.toNat p.capacity p.items m.toNat := by
  rw [solveWithItemLimit]
  cases hv : validateProblem p with
  | some msg => simp
  | none =>
    by_cases hm : m ≤ 0
    · simp [hm, not_lt.mpr hm]
    · by_cases hd : p.capacity.den = 1
      · simp [hm, hd, not_le.mp hm, eq_comm]
      · simp [hm, hd]

end CargoService

namespace CargoService

/-! ### The DP value is the subset optimum -/

theorem profitSum_nil : profitSum [] = 0 := rfl

theorem profitSum_concat (t : List Item) (a : Item) :
    profitSum (t ++ [a]) = profitSum t + a.profit := by
  simp [profitSum]

theorem floorWeightSum_nil : floorWeightSum [] = 0 := rfl

theorem floorWeightSum_concat (t : List Item) (a : Item) :
    floorWeightSum (t ++ [a]) = floorWeightSum t + wNat a := by
  simp [floorWeightSum]

theorem sublist_concat_cases {α : Type} {s A : List α} {a : α}
    (h : s.Sublist (A ++ [a])) :
    s.Sublist A ∨ ∃ t, s = t ++ [a] ∧ t.Sublist A := by
  rw [List.sublist_append_iff] at h
  obtain ⟨l₁, l₂, rfl, h₁, h₂⟩ := h
  rcases List.sublist_singleton.mp h₂ with rfl | rfl
  · left; simpa using h₁
  · right; exact ⟨l₁, rfl, h₁⟩

/-- Past the end of the list the recurrence reads the default item, whose
floored weight and profit are zero, so the table row stops changing. -/
theorem dp_degenerate (items : List Item) (i w : ℕ) (hi : items.length ≤ i) :
    dp items (i + 1) w = dp items i w := by
  rw [dp_succ, List.getD_eq_default _ _ hi]
  have hw : wNat dfltItem = 0 := by simp [wNat, floorWeight, dfltItem]
  rw [hw]
  simp [dfltItem]

theorem take_succ_concat (items : List Item) (i : ℕ) (hi : i < items.length) :
    items.take (i + 1) = items.take i ++ [items.getD i dfltItem] := by
  rw [List.take_succ, List.getD_eq_getElem _ _ hi]
  simp [List.getElem?_eq_getElem hi]

/-- Every subset of the first `i` items that fits in the budget has profit
at most the DP value. -/
theorem profitSum_le_dp (items : List Item) :
    ∀ i w s, s.Sublist (items.take i) → floorWeightSum s ≤ w →
      profitSum s ≤ dp items i w := by
  intro i
  induction i with
  | zero =>
    intro w s hs hw
    rw [List.take_zero, List.sublist_nil] at hs
    subst hs
    rw [profitSum_nil, dp]
  | succ i ih =>
    intro w s hs hw
    by_cases hlen : items.length ≤ i
    · rw [dp_degenerate items i w hlen]
      rw [List.take_of_length_le (hlen.trans i.le_succ),
        ← List.take_of_length_le hlen] at hs
      exact ih w s hs hw
    · push_neg at hlen
      rw [take_succ_concat items i hlen] at hs
      set a := items.getD i dfltItem with ha
      rcases sublist_concat_cases hs with h | ⟨t, rfl, ht⟩
      · exact (ih w s h hw).trans (dp_mono_succ items i w)
      · rw [floorWeightSum_concat] at hw
        rw [profitSum_concat]
        have hwa : wNat a ≤ w := le_trans (Nat.le_add_left _ _) hw
        have hwt : floorWeightSum t ≤ w - wNat a := by omega
        rw [dp_succ, ← ha, if_pos hwa]
        exact le_max_of_le_right (add_le_add_right (ih _ t ht hwt) _)

/-- The DP value is achieved by some subset of the first `i` items that
fits in the budget. -/
theorem dp_achieved (items : List Item) :
    ∀ i w, ∃ s, s.Sublist (items.take i) ∧ floorWeightSum s ≤ w ∧
      profitSum s = dp items i w := by
  intro i
  induction i with
  | zero =>
    intro w
    exact ⟨[], by simp, by simp [floorWeightSum_nil], by rw [profitSum_nil, dp]⟩
  | succ i ih =>
    intro w
    have hsub : (items.take i).Sublist (items.take (i + 1)) := by
      have h := List.take_sublist i (items.take (i + 1))
      rwa [List.take_take, min_eq_left i.le_succ] at h
    by_cases hlen : items.length ≤ i
    · obtain ⟨s, hs, hw, hp⟩ := ih w
      exact ⟨s, hs.trans hsub, hw, by rw [dp_degenerate items i w hlen]; exact hp⟩
    · push_neg at hlen
      set a := items.getD i dfltItem with ha
      rw [dp_succ, ← ha]
      by_cases hwa : wNat a ≤ w
      · rw [if_pos hwa]
        by_cases hcase : dp items i (w - wNat a) + a.profit ≤ dp items i w
        · rw [max_eq_left hcase]
          obtain ⟨s, hs, hw', hp⟩ := ih w
          exact ⟨s, hs.trans hsub, hw', hp⟩
        · rw [max_eq_right (le_of_not_le hcase)]
          obtain ⟨t, ht, hw', hp⟩ := ih (w - wNat a)
          refine ⟨t ++ [a], ?_, ?_, ?_⟩
          · rw [take_succ_concat items i hlen]
            exact ht.append (List.Sublist.refl _)
          · rw [floorWeightSum_concat]; omega
          · rw [profitSum_concat, hp]
      · rw [if_neg hwa]
        obtain ⟨s, hs, hw', hp⟩ := ih w
        exact ⟨s, hs.trans hsub, hw', hp⟩

theorem le_foldr_max {L : List ℚ} {x : ℚ} (hx : x ∈ L) : x ≤ L.foldr max 0 := by
  induction L with
  | nil => cases hx
  | cons a L ih =>
    rcases List.mem_cons.mp hx with rfl | h
    · exact le_max_left _ _
    · exact (ih h).trans (le_max_right _ _)

theorem foldr_max_le {L : List ℚ} {b : ℚ} (hb : 0 ≤ b) (h : ∀ x ∈ L, x ≤ b) :
    L.foldr max 0 ≤ b := by
  induction L with
  | nil => exact hb
  | cons a L ih =>
    exact max_le (h a (List.mem_cons_self a L)) (ih fun x hx => h x (List.mem_cons_of_mem a hx))

/-- The DP value over all `n` items equals the specification's subset
maximum. -/
theorem dp_eq_subsetBest (items : List Item) (w : ℕ) :
    dp items items.length w = subsetBest items w := by
  apply le_antisymm
  · obtain ⟨s, hs, hw, hp⟩ := dp_achieved items items.length w
    rw [List.take_length] at hs
    rw [← hp]
    apply le_foldr_max
    rw [List.mem_map]
    exact ⟨s, List.mem_filter.mpr ⟨List.mem_sublists.mpr hs, by simpa using hw⟩, rfl⟩
  · apply foldr_max_le (dp_nonneg items items.length w)
    intro x hx
    rw [List.mem_map] at hx
    obtain ⟨s, hsf, rfl⟩ := hx
    rw [List.mem_filter] at hsf
    obtain ⟨hs, hwf⟩ := hsf
    rw [List.mem_sublists] at hs
    refine profitSum_le_dp items items.length w s ?_ ?_
    · rwa [List.take_length]
    · simpa using hwf

end CargoService

namespace CargoService

/-! ### Properties of the reconstruction loop -/

theorem profitSum_cons (a : Item) (l : List Item) :
    profitSum (a :: l) = a.profit + profitSum l := by
  simp [profitSum]

theorem floorWeightSum_cons (a : Item) (l : List Item) :
    floorWeightSum (a :: l) = wNat a + floorWeightSum l := by
  simp [floorWeightSum]

/-- If the table value changed between rows `i` and `i+1` then the item fit
(`weight ≤ w`) and the new value came from including it. -/
theorem dp_ne_elim {items : List Item} {i w : ℕ}
    (hne : dp items (i + 1) w ≠ dp items i w) :
    wNat (items.getD i dfltItem) ≤ w ∧
      dp items (i + 1) w =
        dp items i (w - wNat (items.getD i dfltItem)) + (items.getD i dfltItem).profit := by
  rw [dp_succ] at hne ⊢
  by_cases hwa : wNat (items.getD i dfltItem) ≤ w
  · rw [if_pos hwa] at hne ⊢
    rcases max_choice (dp items i w)
      (dp items i (w - wNat (items.getD i dfltItem)) + (items.getD i dfltItem).profit) with
      h | h
    · exact absurd h hne
    · exact ⟨hwa, h⟩
  · rw [if_neg hwa] at hne
    exact absurd rfl hne

/-- The floored weights of the reconstructed selection fit in the starting
budget. -/
theorem reconstruct_floorWeightSum_le (items : List Item) :
    ∀ i w, floorWeightSum (reconstruct items i w) ≤ w := by
  intro i
  induction i with
  | zero => intro w; rw [reconstruct, floorWeightSum_nil]; exact Nat.zero_le w
  | succ i ih =>
    intro w
    rw [reconstruct]
    by_cases hw : w = 0
    · rw [if_pos hw, floorWeightSum_nil]; exact Nat.zero_le w
    · rw [if_neg hw]
      by_cases hne : dp items (i + 1) w ≠ dp items i w
      · rw [if_pos hne, floorWeightSum_cons]
        obtain ⟨hwa, _⟩ := dp_ne_elim hne
        have := ih (w - wNat (items.getD i dfltItem))
        omega
      · rw [if_neg hne]; exact ih w

/-- The profit of the reconstructed selection never exceeds the DP value
(the loop can exit at `w = 0` leaving value unaccounted). -/
theorem reconstruct_profitSum_le (items : List Item) :
    ∀ i w, profitSum (reconstruct items i w) ≤ dp items i w := by
  intro i
  induction i with
  | zero => intro w; rw [reconstruct, profitSum_nil, dp]
  | succ i ih =>
    intro w
    rw [reconstruct]
    by_cases hw : w = 0
    · rw [if_pos hw, profitSum_nil]; exact dp_nonneg items (i + 1) w
    · rw [if_neg hw]
      by_cases hne : dp items (i + 1) w ≠ dp items i w
      · rw [if_pos hne, profitSum_cons]
        obtain ⟨_, heq⟩ := dp_ne_elim hne
        rw [heq, add_comm]
        exact add_le_add_right (ih _) _
      · rw [if_neg hne]
        push_neg at hne
        rw [hne]
        exact ih w
/-- With every relevant floored weight positive, a zero budget forces a
zero table value. -/
theorem dp_budget_zero (items : List Item) :
    ∀ i, (∀ j, j < i → 1 ≤ wNat (items.getD j dfltItem)) → dp items i 0 = 0 := by
  intro i
  induction i with
  | zero => intro _; rw [dp]
  | succ i ih =>
    intro h
    rw [dp_succ, if_neg (by have := h i i.lt_succ_self; omega)]
    exact ih fun j hj => h j (hj.trans i.lt_succ_self)

/-- With every relevant floored weight positive, the reconstruction
accounts for the whole DP value. -/
theorem reconstruct_profitSum_eq (items : List Item) :
    ∀ i w, (∀ j, j < i → 1 ≤ wNat (items.getD j dfltItem)) →
      profitSum (reconstruct items i w) = dp items i w := by
  intro i
  induction i with
  | zero => intro w _; rw [reconstruct, profitSum_nil, dp]
  | succ i ih =>
    intro w h
    rw [reconstruct]
    by_cases hw : w = 0
    · rw [if_pos hw, profitSum_nil, hw, dp_budget_zero items (i + 1) h]
    · rw [if_neg hw]
      by_cases hne : dp items (i + 1) w ≠ dp items i w
      · rw [if_pos hne, profitSum_cons]
        obtain ⟨_, heq⟩ := dp_ne_elim hne
        rw [heq, add_comm, ih _ (fun j hj => h j (hj.trans i.lt_succ_self))]
      · rw [if_neg hne]
        push_neg at hne
        rw [hne, ih w (fun j hj => h j (hj.trans i.lt_succ_self))]

/-- Every reconstructed item is one of the input items. -/
theorem reconstruct_mem (items : List Item) :
    ∀ i w x, i ≤ items.length → x ∈ reconstruct items i w → x ∈ items := by
  intro i
  induction i with
  | zero => intro w x _ hx; rw [reconstruct] at hx; cases hx
  | succ i ih =>
    intro w x hi hx
    rw [reconstruct] at hx
    by_cases hw : w = 0
    · rw [if_pos hw] at hx; cases hx
    · rw [if_neg hw] at hx
      by_cases hne : dp items (i + 1) w ≠ dp items i w
      · rw [if_pos hne] at hx
        rcases List.mem_cons.mp hx with rfl | hx'
        · rw [List.getD_eq_getElem _ _ (by omega)]
          exact List.getElem_mem _
        · exact ih _ x (by omega) hx'
      · rw [if_neg hne] at hx
        exact ih w x (by omega) hx

end CargoService

namespace CargoService

/-! ### The cardinality-bounded variant versus the unrestricted solve -/

theorem dpLimit_le_dp (items : List Item) :
    ∀ i w k, dpLimit items i w k ≤ dp items i w := by
  intro i
  induction i with
  | zero => intro w k; rw [dpLimit, dp]
  | succ i ih =>
    intro w k
    rw [dpLimit_succ, dp_succ]
    by_cases hwa : wNat (items.getD i dfltItem) ≤ w
    · by_cases hk : 0 < k
      · rw [if_pos ⟨hwa, hk⟩, if_pos hwa]
        exact max_le_max (ih w k) (add_le_add_right (ih _ _) _)
      · rw [if_neg (fun h => hk h.2), if_pos hwa]
        exact (ih w k).trans (le_max_left _ _)
    · rw [if_neg (fun h => hwa h.1), if_neg hwa]
      exact ih w k

theorem reconstructLimit_length_le (items : List Item) :
    ∀ i w k, (reconstructLimit items i w k).length ≤ k := by
  intro i
  induction i with
  | zero => intro w k; rw [reconstructLimit]; exact Nat.zero_le k
  | succ i ih =>
    intro w k
    rw [reconstructLimit]
    by_cases hwk : w = 0 ∨ k = 0
    · rw [if_pos hwk]; exact Nat.zero_le k
    · rw [if_neg hwk]
      push_neg at hwk
      by_cases hne : dpLimit items (i + 1) w k ≠ dpLimit items i w k
      · rw [if_pos hne, List.length_cons]
        have := ih (w - wNat (items.getD i dfltItem)) (k - 1)
        omega
      · rw [if_neg hne]; exact ih w k

/-! ### The tables depend only on the first `i` items -/

theorem dp_congr {l₁ l₂ : List Item} :
    ∀ i, (∀ j, j < i → l₁.getD j dfltItem = l₂.getD j dfltItem) →
      ∀ w, dp l₁ i w = dp l₂ i w := by
  intro i
  induction i with
  | zero => intro _ w; rw [dp, dp]
  | succ i ih =>
    intro h w
    have hj := h i i.lt_succ_self
    have ih' := ih fun j hj => h j (hj.trans i.lt_succ_self)
    rw [dp_succ, dp_succ, hj, ih' w, ih' (w - wNat (l₂.getD i dfltItem))]

theorem reconstruct_congr {l₁ l₂ : List Item} :
    ∀ i, (∀ j, j < i → l₁.getD j dfltItem = l₂.getD j dfltItem) →
      ∀ w, reconstruct l₁ i w = reconstruct l₂ i w := by
  intro i
  induction i with
  | zero => intro _ w; rw [reconstruct, reconstruct]
  | succ i ih =>
    intro h w
    have hj := h i i.lt_succ_self
    have hlt := fun j (hj' : j < i) => h j (hj'.trans i.lt_succ_self)
    have ih' := ih hlt
    rw [reconstruct, reconstruct, dp_congr (i + 1) h w, dp_congr i hlt w, hj,
      ih' (w - wNat (l₂.getD i dfltItem)), ih' w]

theorem dpLimit_congr {l₁ l₂ : List Item} :
    ∀ i, (∀ j, j < i → l₁.getD j dfltItem = l₂.getD j dfltItem) →
      ∀ w k, dpLimit l₁ i w k = dpLimit l₂ i w k := by
  intro i
  induction i with
  | zero => intro _ w k; rw [dpLimit, dpLimit]
  | succ i ih =>
    intro h w k
    have hj := h i i.lt_succ_self
    have ih' := ih fun j hj => h j (hj.trans i.lt_succ_self)
    rw [dpLimit_succ, dpLimit_succ, hj, ih' w k,
      ih' (w - wNat (l₂.getD i dfltItem)) (k - 1)]

theorem reconstructLimit_congr {l₁ l₂ : List Item} :
    ∀ i, (∀ j, j < i → l₁.getD j dfltItem = l₂.getD j dfltItem) →
      ∀ w k, reconstructLimit l₁ i w k = reconstructLimit l₂ i w k := by
  intro i
  induction i with
  | zero => intro _ w k; rw [reconstructLimit, reconstructLimit]
  | succ i ih =>
    intro h w k
    have hj := h i i.lt_succ_self
    have hlt := fun j (hj' : j < i) => h j (hj'.trans i.lt_succ_self)
    have ih' := ih hlt
    rw [reconstructLimit, reconstructLimit, dpLimit_congr (i + 1) h w k,
      dpLimit_congr i hlt w k, hj, ih' (w - wNat (l₂.getD i dfltItem)) (k - 1), ih' w k]

theorem getD_take (l : List Item) (n j : ℕ) (hj : j < n) :
    (l.take n).getD j dfltItem = l.getD j dfltItem := by
  by_cases hl : j < l.length
  · rw [List.getD_eq_getElem _ _ (by simp [hl, hj]), List.getD_eq_getElem _ _ hl]
    exact List.getElem_take ..
  · push_neg at hl
    rw [List.getD_eq_default _ _ (by simp [hl]), List.getD_eq_default _ _ hl]

/-! ### Profit monotonicity of the DP table -/

theorem dp_mono_profit {l₁ l₂ : List Item} :
    ∀ i, (∀ j, j < i →
        wNat (l₁.getD j dfltItem) = wNat (l₂.getD j dfltItem) ∧
        (l₁.getD j dfltItem).profit ≤ (l₂.getD j dfltItem).profit) →
      ∀ w, dp l₁ i w ≤ dp l₂ i w := by
  intro i
  induction i with
  | zero => intro _ w; rw [dp, dp]
  | succ i ih =>
    intro h w
    obtain ⟨hwj, hpj⟩ := h i i.lt_succ_self
    have ih' := ih fun j hj => h j (hj.trans i.lt_succ_self)
    rw [dp_succ, dp_succ, hwj]
    by_cases hwa : wNat (l₂.getD i dfltItem) ≤ w
    · rw [if_pos hwa, if_pos hwa]
      exact max_le_max (ih' w) (add_le_add (ih' _) hpj)
    · rw [if_neg hwa, if_neg hwa]
      exact ih' w

end CargoService

namespace CargoService

/-! ### Exact weights versus floored weights -/

/-- When every weight is a positive integer-valued rational, the exact
weight sum equals the floored-weight sum. -/
theorem weight_sum_eq_cast (l : List Item)
    (h : ∀ it ∈ l, 0 < it.weight ∧ it.weight.den = 1) :
    (l.map Item.weight).sum = (floorWeightSum l : ℚ) := by
  induction l with
  | nil => simp [floorWeightSum]
  | cons a l ih =>
    obtain ⟨hpos, hden⟩ := h a (List.mem_cons_self a l)
    have hnum : (a.weight.num : ℚ) = a.weight := Rat.coe_int_num_of_den_eq_one hden
    have hfl : floorWeight a = a.weight.num := by
      rw [floorWeight]
      conv_lhs => rw [← hnum]
      exact Int.floor_intCast _
    have h0 : (0 : ℤ) ≤ a.weight.num := Int.le_of_lt (Rat.num_pos.mpr hpos)
    have ha : ((wNat a : ℚ)) = a.weight := by
      rw [wNat, hfl, ← hnum]
      exact_mod_cast Int.toNat_of_nonneg h0
    rw [List.map_cons, List.sum_cons, floorWeightSum_cons, Nat.cast_add, ha,
      ih fun it hit => h it (List.mem_cons_of_mem a hit)]

/-- A weight of at least one has a positive floored weight. -/
theorem one_le_wNat_of_one_le_weight {it : Item} (h : 1 ≤ it.weight) :
    1 ≤ wNat it := by
  have h1 : (1 : ℤ) ≤ ⌊it.weight⌋ := Int.le_floor.mpr (by exact_mod_cast h)
  rw [wNat, floorWeight]
  omega

/-! ### `optimizeMultipleScenarios` as exception-propagating map -/

theorem optimizeMultipleScenarios_nil : optimizeMultipleScenarios [] = .ok [] := rfl

theorem optimizeMultipleScenarios_cons (p : KnapsackProblemDto)
    (ps : List KnapsackProblemDto) :
    optimizeMultipleScenarios (p :: ps) =
      match solve p with
      | .error e => .error e
      | .ok s =>
        match optimizeMultipleScenarios ps with
        | .error e => .error e
        | .ok l => .ok (s :: l) := by
  rw [optimizeMultipleScenarios, optimizeMultipleScenarios, List.mapM_cons]
  cases solve p with
  | error e => rfl
  | ok s =>
    cases List.mapM solve ps with
    | error e => rfl
    | ok l => rfl

theorem optimizeMultipleScenarios_ok_iff :
    ∀ (ps : List KnapsackProblemDto) (l : List KnapsackSolutionDto),
      optimizeMultipleScenarios ps = .ok l ↔ ps.map solve = l.map Except.ok := by
  intro ps
  induction ps with
  | nil =>
    intro l
    rw [optimizeMultipleScenarios_nil]
    cases l with
    | nil => simp
    | cons s l => simp
  | cons p ps ih =>
    intro l
    rw [optimizeMultipleScenarios_cons, List.map_cons]
    cases hp : solve p with
    | error e =>
      constructor
      · intro h; cases h
      · intro h
        cases l with
        | nil => simp at h
        | cons t l => simp at h
    | ok s =>
      cases ho : optimizeMultipleScenarios ps with
      | error e =>
        constructor
        · intro h; cases h
        · intro h
          cases l with
          | nil => simp at h
          | cons t l =>
            simp only [List.map_cons, List.cons.injEq] at h
            have h2 := (ih l).mpr h.2
            rw [ho] at h2
            cases h2
      | ok l₂ =>
        constructor
        · intro h
          have hl : l = s :: l₂ := by
            injection h with h'
            exact h'.symm
          subst hl
          rw [List.map_cons, (ih l₂).mp ho]
        · intro h
          cases l with
          | nil => simp at h
          | cons t l =>
            simp only [List.map_cons, List.cons.injEq] at h
            obtain ⟨h1, h2⟩ := h
            have h3 := (ih l).mpr h2
            rw [ho] at h3
            injection h3 with h3
            injection h1 with h1
            rw [h1, h3]

theorem optimizeMultipleScenarios_error_iff :
    ∀ (ps : List KnapsackProblemDto) (e : SolveError),
      optimizeMultipleScenarios ps = .error e ↔
        ∃ qs q rs, ps = qs ++ q :: rs ∧ (∀ x ∈ qs, ∃ s, solve x = .ok s) ∧
          solve q = .error e := by
  intro ps
  induction ps with
  | nil =>
    intro e
    rw [optimizeMultipleScenarios_nil]
    constructor
    · intro h; cases h
    · rintro ⟨qs, q, rs, habs, -, -⟩
      exact absurd habs.symm (List.append_ne_nil_of_right_ne_nil qs (by simp))
  | cons p ps ih =>
    intro e
    rw [optimizeMultipleScenarios_cons]
    cases hp : solve p with
    | error e' =>
      constructor
      · intro h
        injection h with h'
        exact ⟨[], p, ps, rfl, by simp, by rw [hp, h']⟩
      · rintro ⟨qs, q, rs, hps, hok, herr⟩
        cases qs with
        | nil =>
          simp only [List.nil_append, List.cons.injEq] at hps
          rw [← hps.1, hp] at herr
          injection herr with h'
          rw [h']
        | cons q' qs =>
          simp only [List.cons_append, List.cons.injEq] at hps
          obtain ⟨s, hs⟩ := hok q' (List.mem_cons_self q' qs)
          rw [← hps.1, hp] at hs
          cases hs
    | ok s =>
      cases ho : optimizeMultipleScenarios ps with
      | error e' =>
        constructor
        · intro h
          injection h with h'
          subst h'
          obtain ⟨qs, q, rs, hps, hok, herr⟩ := (ih e').mp ho
          refine ⟨p :: qs, q, rs, by simp [hps], ?_, herr⟩
          rintro x hx
          rcases List.mem_cons.mp hx with rfl | hx'
          · exact ⟨s, hp⟩
          · exact hok x hx'
        · rintro ⟨qs, q, rs, hps, hok, herr⟩
          cases qs with
          | nil =>
            simp only [List.nil_append, List.cons.injEq] at hps
            rw [← hps.1, hp] at herr
            cases herr
          | cons q' qs =>
            simp only [List.cons_append, List.cons.injEq] at hps
            have h2 : optimizeMultipleScenarios ps = .error e :=
              (ih e).mpr ⟨qs, q, rs, hps.2, fun x hx =>
                hok x (List.mem_cons_of_mem q' hx), herr⟩
            rw [ho] at h2
            injection h2 with h2
            rw [h2]
      | ok l =>
        constructor
        · intro h; cases h
        · rintro ⟨qs, q, rs, hps, hok, herr⟩
          cases qs with
          | nil =>
            simp only [List.nil_append, List.cons.injEq] at hps
            rw [← hps.1, hp] at herr
            cases herr
          | cons q' qs =>
            simp only [List.cons_append, List.cons.injEq] at hps
            have h2 : optimizeMultipleScenarios ps = .error e :=
              (ih e).mpr ⟨qs, q, rs, hps.2, fun x hx =>
                hok x (List.mem_cons_of_mem q' hx), herr⟩
            rw [ho] at h2
            cases h2

end CargoService

namespace CargoService

/-! ### Projections of the assembled solutions -/

theorem solveCore_totalProfit (capNat : ℕ) (capacity : ℚ) (items : List Item) :
    (solveCore capNat capacity items).totalProfit = dp items items.length capNat := rfl

theorem solveCore_selectedItems (capNat : ℕ) (capacity : ℚ) (items : List Item) :
    (solveCore capNat capacity items).selectedItems = reconstruct items items.length capNat := rfl

theorem solveCore_totalWeight (capNat : ℕ) (capacity : ℚ) (items : List Item) :
    (solveCore capNat capacity items).totalWeight =
      ((reconstruct items items.length capNat).map Item.weight).sum := rfl

theorem solveLimitCore_totalProfit (capNat : ℕ) (capacity : ℚ) (items : List Item)
    (maxItems : ℕ) :
    (solveLimitCore capNat capacity items maxItems).totalProfit =
      dpLimit items (min items.length maxItems) capNat maxItems := rfl

theorem solveLimitCore_selectedItems (capNat : ℕ) (capacity : ℚ) (items : List Item)
    (maxItems : ℕ) :
    (solveLimitCore capNat capacity items maxItems).selectedItems =
      reconstructLimit items (min items.length maxItems) capNat maxItems := rfl

/-- For a positive integer-valued capacity, `⌊capacity⌋` is its numerator. -/
theorem floor_capacity_eq {q : ℚ} (hd : q.den = 1) : ⌊q⌋ = q.num := by
  conv_lhs => rw [← Rat.coe_int_num_of_den_eq_one hd]
  exact Int.floor_intCast _

end CargoService

open CargoService in
/-- Claim C1: For every input on which `CargoService.solve` succeeds (in
particular every input satisfying the preconditions with an integer
capacity), the returned `totalProfit` is the DP value `best[n][⌊capacity⌋]`
of the 0/1-knapsack recurrence over floored weights, and equivalently the
maximum over all subsets of the items of the summed profit subject to the
subset's summed floored weights being at most `⌊capacity⌋`. -/
theorem claim_C1_solve_totalProfit_optimal (p : KnapsackProblemDto)
    (s : KnapsackSolutionDto) (h : solve p = .ok s) :
    s.totalProfit = dp p.items p.items.length ⌊p.capacity⌋.toNat ∧
      s.totalProfit = subsetBest p.items ⌊p.capacity⌋.toNat := by
  obtain ⟨hv, hd, hs⟩ := (solve_ok_iff p s).mp h
  subst hs
  rw [floor_capacity_eq hd, solveCore_totalProfit]
  exact ⟨rfl, dp_eq_subsetBest p.items p.capacity.num.toNat⟩

open CargoService in
/-- Witness for claim C1: Scenario A (capacity 50, items (w10, p100), (w20, p150)). -/
theorem claim_C1_witness :
    exSolutionC1.totalProfit = dp exProblemC1.items exProblemC1.items.length
        ⌊exProblemC1.capacity⌋.toNat ∧
      exSolutionC1.totalProfit = subsetBest exProblemC1.items ⌊exProblemC1.capacity⌋.toNat :=
  claim_C1_solve_totalProfit_optimal exProblemC1 exSolutionC1 rfl

open CargoService in
/-- Counterexample to claim C2: On capacity 1 with the single valid item of
weight 1.9 (profit 5), `solve` succeeds and returns `totalWeight = 1.9`,
strictly above the capacity — the claim `totalWeight ≤ capacity` fails. -/
theorem claim_C2_counterexample :
    solve exProblemC2 = .ok exSolutionC2 ∧
      exProblemC2.capacity < exSolutionC2.totalWeight := by
  constructor
  · rfl
  · show (1 : ℚ) < _
    rw [exSolutionC2, solveCore_totalWeight]
    with_unfolding_all decide

open CargoService in
/-- Claim C2 as amended: For every input on which `solve` succeeds, the
*floored* weights of the selected items sum to at most `⌊capacity⌋`; and
whenever every item weight is integer-valued, the exact `totalWeight` is at
most the capacity.  (With fractional weights the exact total can exceed the
capacity, as the counterexample shows.) -/
theorem claim_C2_amended_weight_bound (p : KnapsackProblemDto)
    (s : KnapsackSolutionDto) (h : solve p = .ok s) :
    floorWeightSum s.selectedItems ≤ ⌊p.capacity⌋.toNat ∧
      ((∀ it ∈ p.items, it.weight.den = 1) → s.totalWeight ≤ p.capacity) := by
  obtain ⟨hv, hd, hs⟩ := (solve_ok_iff p s).mp h
  have hval := (validateProblem_none_iff p).mp hv
  subst hs
  rw [floor_capacity_eq hd, solveCore_selectedItems, solveCore_totalWeight]
  constructor
  · exact reconstruct_floorWeightSum_le p.items p.items.length p.capacity.num.toNat
  · intro hint
    have hsel : ∀ it ∈ reconstruct p.items p.items.length p.capacity.num.toNat,
        0 < it.weight ∧ it.weight.den = 1 := by
      intro it hit
      have him := reconstruct_mem p.items p.items.length p.capacity.num.toNat it le_rfl hit
      exact ⟨(hval.2.2.1 it him).1, hint it him⟩
    rw [weight_sum_eq_cast _ hsel]
    have hle := reconstruct_floorWeightSum_le p.items p.items.length p.capacity.num.toNat
    have hcast : ((p.capacity.num.toNat : ℚ)) = p.capacity := by
      have h0 : (0 : ℤ) ≤ p.capacity.num := Int.le_of_lt (Rat.num_pos.mpr hval.1)
      rw [← Rat.coe_int_num_of_den_eq_one hd]
      exact_mod_cast Int.toNat_of_nonneg h0
    calc ((floorWeightSum (reconstruct p.items p.items.length p.capacity.num.toNat) : ℚ))
        ≤ ((p.capacity.num.toNat : ℚ)) := by exact_mod_cast hle
      _ = p.capacity := hcast

open CargoService in
/-- Witness for claim C2: the amended bound at the concrete C2 input. -/
theorem claim_C2_witness :
    floorWeightSum exSolutionC2.selectedItems ≤ ⌊exProblemC2.capacity⌋.toNat ∧
      ((∀ it ∈ exProblemC2.items, it.weight.den = 1) →
        exSolutionC2.totalWeight ≤ exProblemC2.capacity) :=
  claim_C2_amended_weight_bound exProblemC2 exSolutionC2 rfl

open CargoService in
/-- Counterexample to claim C3: On capacity 1 with items (w0.5, p5) then
(w1, p10), `solve` reports `totalProfit = 15` but the reconstructed
selection is only the second item (profit 10): the loop exits at `w = 0`
before reaching the zero-floored-weight item, so the reported profit is not
the sum of the selected items' profits. -/
theorem claim_C3_counterexample :
    solve exProblemC3 = .ok exSolutionC3 ∧
      exSolutionC3.totalProfit ≠ (exSolutionC3.selectedItems.map Item.profit).sum := by
  constructor
  · rfl
  · rw [exSolutionC3, solveCore_totalProfit, solveCore_selectedItems]
    with_unfolding_all decide

open CargoService in
/-- Claim C3 as amended: For every input on which `solve` succeeds, the summed
profit of the returned `selectedItems` never exceeds `totalProfit`, and
equals it whenever every item weight is at least 1 (so no floored weight is
zero). -/
theorem claim_C3_amended_profit_accounting (p : KnapsackProblemDto)
    (s : KnapsackSolutionDto) (h : solve p = .ok s) :
    (s.selectedItems.map Item.profit).sum ≤ s.totalProfit ∧
      ((∀ it ∈ p.items, 1 ≤ it.weight) →
        s.totalProfit = (s.selectedItems.map Item.profit).sum) := by
  obtain ⟨hv, hd, hs⟩ := (solve_ok_iff p s).mp h
  subst hs
  rw [solveCore_selectedItems, solveCore_totalProfit]
  constructor
  · exact reconstruct_profitSum_le p.items p.items.length p.capacity.num.toNat
  · intro hwts
    have hj : ∀ j, j < p.items.length → 1 ≤ wNat (p.items.getD j dfltItem) := by
      intro j hjl
      refine one_le_wNat_of_one_le_weight (hwts _ ?_)
      rw [List.getD_eq_getElem _ _ hjl]
      exact List.getElem_mem _
    exact (reconstruct_profitSum_eq p.items p.items.length p.capacity.num.toNat hj).symm

open CargoService in
/-- Witness for claim C3: the amended accounting at Scenario-A-like input C7's
sibling — the concrete C3 input. -/
theorem claim_C3_witness :
    (exSolutionC3.selectedItems.map Item.profit).sum ≤ exSolutionC3.totalProfit ∧
      ((∀ it ∈ exProblemC3.items, 1 ≤ it.weight) →
        exSolutionC3.totalProfit = (exSolutionC3.selectedItems.map Item.profit).sum) :=
  claim_C3_amended_profit_accounting exProblemC3 exSolutionC3 rfl

open CargoService in
/-- Counterexample to claim C4: Capacity 0.5 with a valid item meets every
stated precondition (`validateProblem` passes), yet `solve` does not fully
succeed: `Array(capacity + 1)` throws a `RangeError`, which is not a
validation failure. -/
theorem claim_C4_counterexample :
    validateProblem exProblemC4 = none ∧ ValidProblem exProblemC4 ∧
      solve exProblemC4 = .error (.rangeError "Invalid array length") := by
  refine ⟨rfl, ?_, rfl⟩
  with_unfolding_all decide

open CargoService in
/-- Claim C4 as amended: `solve` raises a validation error iff a precondition
is violated (capacity ≤ 0, empty items, a weight ≤ 0, a profit < 0, or
duplicate ids), and `solveWithItemLimit` additionally iff `maxItems ≤ 0`;
these failures come from `validateProblem` (or the `maxItems` guard), which
run before any DP computation.  On inputs meeting the preconditions the
solve fully succeeds **provided the capacity is an integer**; a fractional
positive capacity instead crashes with a `RangeError` when the DP table is
allocated (see the counterexample). -/
theorem claim_C4_amended_validation :
    (∀ p : KnapsackProblemDto,
        (∃ msg, solve p = .error (.badRequest msg)) ↔ ¬ ValidProblem p) ∧
      (∀ (p : KnapsackProblemDto) (m : ℤ),
        (∃ msg, solveWithItemLimit p m = .error (.badRequest msg)) ↔
          (¬ ValidProblem p ∨ m ≤ 0)) ∧
      (∀ p : KnapsackProblemDto, ValidProblem p → p.capacity.den = 1 →
        ∃ s, solve p = .ok s) ∧
      (∀ (p : KnapsackProblemDto) (m : ℤ), ValidProblem p → 0 < m →
        p.capacity.den = 1 → ∃ s, solveWithItemLimit p m = .ok s) := by
  refine ⟨?_, ?_, ?_, ?_⟩
  · intro p
    constructor
    · rintro ⟨msg, hmsg⟩
      intro hval
      have hv := (validateProblem_none_iff p).mpr hval
      rw [solve, hv] at hmsg
      by_cases hd : p.capacity.den = 1
      · rw [if_pos hd] at hmsg; simp at hmsg
      · rw [if_neg hd] at hmsg; simp at hmsg
    · intro hval
      cases hv : validateProblem p with
      | some msg => exact ⟨msg, by rw [solve, hv]⟩
      | none => exact absurd ((validateProblem_none_iff p).mp hv) hval
  · intro p m
    constructor
    · rintro ⟨msg, hmsg⟩
      rw [solveWithItemLimit] at hmsg
      cases hv : validateProblem p with
      | some msg' =>
        refine Or.inl fun hval => ?_
        have hnone := (validateProblem_none_iff p).mpr hval
        rw [hv] at hnone
        cases hnone
      | none =>
        rw [hv] at hmsg
        by_cases hm : m ≤ 0
        · exact Or.inr hm
        · rw [if_neg hm] at hmsg
          by_cases hd : p.capacity.den = 1
          · rw [if_pos hd] at hmsg; simp at hmsg
          · rw [if_neg hd] at hmsg; simp at hmsg
    · intro hvm
      cases hv : validateProblem p with
      | some msg => exact ⟨msg, by rw [solveWithItemLimit, hv]⟩
      | none =>
        rcases hvm with hval | hm
        · exact absurd ((validateProblem_none_iff p).mp hv) hval
        · exact ⟨"El límite de items debe ser mayor a cero",
            by rw [solveWithItemLimit, hv, if_pos hm]⟩
  · intro p hval hd
    have hv := (validateProblem_none_iff p).mpr hval
    exact ⟨_, by rw [solve, hv, if_pos hd]⟩
  · intro p m hval hm hd
    have hv := (validateProblem_none_iff p).mpr hval
    exact ⟨_, by rw [solveWithItemLimit, hv, if_neg (not_le.mpr hm), if_pos hd]⟩

open CargoService in
/-- Witness for claim C4: the amended success clause at the concrete valid
integer-capacity input, and the validation-iff at the same input. -/
theorem claim_C4_witness :
    (∃ s, solve exProblemC4v = .ok s) ∧
      ¬ (∃ msg, solve exProblemC4v = .error (.badRequest msg)) :=
  ⟨claim_C4_amended_validation.2.2.1 exProblemC4v (by with_unfolding_all decide) (by decide),
    fun h => ((claim_C4_amended_validation.1 exProblemC4v).mp h)
      (by with_unfolding_all decide)⟩

namespace CargoService

theorem dpLimit_zero (items : List Item) (w k : ℕ) : dpLimit items 0 w k = 0 := rfl

theorem reconstructLimit_zero (items : List Item) (w k : ℕ) :
    reconstructLimit items 0 w k = [] := rfl

theorem reconstructLimit_succ (items : List Item) (i w k : ℕ) :
    reconstructLimit items (i + 1) w k =
      if w = 0 ∨ k = 0 then []
      else if dpLimit items (i + 1) w k ≠ dpLimit items i w k then
        items.getD i dfltItem ::
          reconstructLimit items i (w - wNat (items.getD i dfltItem)) (k - 1)
      else reconstructLimit items i w k := rfl

theorem solveLimitCore_selectedItemIds (capNat : ℕ) (capacity : ℚ) (items : List Item)
    (maxItems : ℕ) :
    (solveLimitCore capNat capacity items maxItems).selectedItemIds =
      (reconstructLimit items (min items.length maxItems) capNat maxItems).map Item.id := rfl

end CargoService

open CargoService in
/-- Claim C5: For every input accepted by `solveWithItemLimit` the returned
selection has at most `maxItems` items, and the returned `totalProfit` is
at most the `totalProfit` of `solve` on the same capacity with the items
restricted to the first `min(n, maxItems)` ones. -/
theorem claim_C5_bounded_variant (p : KnapsackProblemDto) (m : ℤ)
    (s s' : KnapsackSolutionDto)
    (h : solveWithItemLimit p m = .ok s)
    (h' : solve ⟨p.capacity, p.items.take (min p.items.length m.toNat)⟩ = .ok s') :
    (s.selectedItems.length : ℤ) ≤ m ∧ s.totalProfit ≤ s'.totalProfit := by
  obtain ⟨hv, hm, hd, hs⟩ := (solveWithItemLimit_ok_iff p m s).mp h
  obtain ⟨hv', hd', hs'⟩ := (solve_ok_iff _ s').mp h'
  subst hs
  subst hs'
  constructor
  · rw [solveLimitCore_selectedItems]
    have hlen := reconstructLimit_length_le p.items (min p.items.length m.toNat)
      p.capacity.num.toNat m.toNat
    omega
  · rw [solveLimitCore_totalProfit, solveCore_totalProfit]
    have hlen : ((p.items.take (min p.items.length m.toNat)).length) =
        min p.items.length m.toNat := by
      rw [List.length_take]
      omega
    rw [hlen]
    have hcongr := @dpLimit_congr p.items
      (p.items.take (min p.items.length m.toNat))
      (min p.items.length m.toNat)
      (fun j hj => (getD_take p.items _ j hj).symm)
      p.capacity.num.toNat m.toNat
    rw [hcongr]
    exact dpLimit_le_dp _ _ _ _

open CargoService in
/-- Witness for claim C5: maxItems 1 over items (w10, p100), (w5, p80) at
capacity 10, against the unrestricted solve on the one-item prefix. -/
theorem claim_C5_witness :
    ((exSolutionC5.selectedItems.length : ℤ) ≤ 1 ∧
      exSolutionC5.totalProfit ≤ exPrefixSolutionC5.totalProfit) :=
  claim_C5_bounded_variant exProblemC5 1 exSolutionC5 exPrefixSolutionC5 rfl rfl

namespace CargoService

/-- The function `solveLimitCore` depends only on the first `min(length, maxItems)`
items. -/
theorem solveLimitCore_congr (capNat : ℕ) (capacity : ℚ) {l₁ l₂ : List Item}
    (maxItems : ℕ)
    (hmin : min l₁.length maxItems = min l₂.length maxItems)
    (hgetD : ∀ j, j < min l₁.length maxItems →
      l₁.getD j dfltItem = l₂.getD j dfltItem) :
    solveLimitCore capNat capacity l₁ maxItems =
      solveLimitCore capNat capacity l₂ maxItems := by
  have h1 := dpLimit_congr (min l₁.length maxItems) hgetD capNat maxItems
  have h2 := reconstructLimit_congr (min l₁.length maxItems) hgetD capNat maxItems
  simp only [solveLimitCore]
  rw [← hmin, h1, h2]

end CargoService

open CargoService in
/-- Claim C6: The result of `solveWithItemLimit` depends only on the first
`min(n, maxItems)` items (for valid inputs with a common capacity the full
returned records agree, method label included); and concretely, for every
integer capacity ≥ 10, `maxItems = 1` over items (w10, p100), (w5, p80)
selects exactly the first item with `totalProfit 100`. -/
theorem claim_C6_prefix_dependence :
    (∀ (p₁ p₂ : KnapsackProblemDto) (m : ℤ),
        validateProblem p₁ = none → validateProblem p₂ = none →
        p₁.capacity = p₂.capacity →
        min p₁.items.length m.toNat = min p₂.items.length m.toNat →
        p₁.items.take (min p₁.items.length m.toNat) =
          p₂.items.take (min p₂.items.length m.toNat) →
        solveWithItemLimit p₁ m = solveWithItemLimit p₂ m) ∧
      (∀ c : ℕ, 10 ≤ c →
        ∃ s, solveWithItemLimit ⟨(c : ℚ), [exItemC6a, exItemC6b]⟩ 1 = .ok s ∧
          s.selectedItems = [exItemC6a] ∧ s.selectedItemIds = ["1"] ∧
          s.totalProfit = 100) := by
  constructor
  · intro p₁ p₂ m hv₁ hv₂ hcap hmin htake
    rw [solveWithItemLimit, solveWithItemLimit, hv₁, hv₂]
    by_cases hm : m ≤ 0
    · rw [if_pos hm, if_pos hm]
    · rw [if_neg hm, if_neg hm, hcap]
      by_cases hd : p₂.capacity.den = 1
      · rw [if_pos hd, if_pos hd]
        have hgetD : ∀ j, j < min p₁.items.length m.toNat →
            p₁.items.getD j dfltItem = p₂.items.getD j dfltItem := by
          intro j hj
          rw [← getD_take p₁.items _ j hj, htake, getD_take p₂.items _ j (hmin ▸ hj)]
        rw [solveLimitCore_congr p₂.capacity.num.toNat p₂.capacity m.toNat hmin hgetD]
      · rw [if_neg hd, if_neg hd]
  · intro c hc
    have hc0 : (0 : ℚ) < (c : ℚ) := by
      have : 0 < c := by omega
      exact_mod_cast this
    have hwA : wNat exItemC6a = 10 := by with_unfolding_all decide
    have hv : validateProblem ⟨(c : ℚ), [exItemC6a, exItemC6b]⟩ = none := by
      rw [validateProblem]
      rw [if_neg (not_le.mpr hc0)]
      rw [if_neg (show ¬([exItemC6a, exItemC6b].length = 0) by decide)]
      rw [show itemsCheck 0 [exItemC6a, exItemC6b] = none from by with_unfolding_all decide]
      rw [if_neg (show ¬((List.map Item.id [exItemC6a, exItemC6b]).length ≠
        (List.map Item.id [exItemC6a, exItemC6b]).dedup.length) from by
          with_unfolding_all decide)]
    have hnum : ((c : ℚ)).num.toNat = c := by
      rw [Rat.num_natCast, Int.toNat_natCast]
    have hsolve : solveWithItemLimit ⟨(c : ℚ), [exItemC6a, exItemC6b]⟩ 1 =
        .ok (solveLimitCore c (c : ℚ) [exItemC6a, exItemC6b] 1) := by
      rw [solveWithItemLimit, hv, if_neg (by decide),
        if_pos (Rat.den_natCast c : ((c : ℚ)).den = 1), hnum]
      rfl
    have hdp1 : dpLimit [exItemC6a, exItemC6b] 1 c 1 = 100 := by
      show dpLimit [exItemC6a, exItemC6b] (0 + 1) c 1 = 100
      rw [dpLimit_succ]
      have hg : [exItemC6a, exItemC6b].getD 0 dfltItem = exItemC6a := rfl
      rw [hg, hwA, if_pos ⟨by omega, Nat.zero_lt_one⟩, dpLimit_zero, dpLimit_zero]
      norm_num [exItemC6a]
    have hne : dpLimit [exItemC6a, exItemC6b] (0 + 1) c 1 ≠
        dpLimit [exItemC6a, exItemC6b] 0 c 1 := by
      rw [show (0 + 1 : ℕ) = 1 from rfl, hdp1, dpLimit_zero]
      norm_num
    have hrec : reconstructLimit [exItemC6a, exItemC6b] 1 c 1 = [exItemC6a] := by
      show reconstructLimit [exItemC6a, exItemC6b] (0 + 1) c 1 = [exItemC6a]
      rw [reconstructLimit_succ]
      rw [if_neg (by omega : ¬(c = 0 ∨ (1 : ℕ) = 0))]
      rw [if_pos hne, reconstructLimit_zero]
      rfl
    refine ⟨solveLimitCore c (c : ℚ) [exItemC6a, exItemC6b] 1, hsolve, ?_, ?_, ?_⟩
    · rw [solveLimitCore_selectedItems]
      exact hrec
    · rw [solveLimitCore_selectedItemIds]
      rw [show min ([exItemC6a, exItemC6b].length) 1 = 1 from rfl, hrec]
      rfl
    · rw [solveLimitCore_totalProfit]
      exact hdp1

open CargoService in
/-- Witness for claim C6: the Scenario-E clause at the concrete capacity 12. -/
theorem claim_C6_witness :
    ∃ s, solveWithItemLimit ⟨((12 : ℕ) : ℚ), [exItemC6a, exItemC6b]⟩ 1 = .ok s ∧
      s.selectedItems = [exItemC6a] ∧ s.selectedItemIds = ["1"] ∧
      s.totalProfit = 100 :=
  claim_C6_prefix_dependence.2 12 (by norm_num)

namespace CargoService

theorem list_set_self {α : Type} (l : List α) (j : ℕ) (hj : j < l.length) :
    l.set j l[j] = l := by
  apply List.ext_getElem (by simp)
  intro i h1 h2
  by_cases hij : j = i
  · subst hij
    simp
  · rw [List.getElem_set_ne hij]

end CargoService

open CargoService in
/-- Claim C7: Raising a single item's profit (all else fixed) on a valid
input never decreases the returned `totalProfit`: the modified input also
solves, with at least the original profit. -/
theorem claim_C7_profit_monotonicity (p : KnapsackProblemDto) (j : ℕ) (q : ℚ)
    (s : KnapsackSolutionDto) (hj : j < p.items.length)
    (hq : (p.items.getD j dfltItem).profit ≤ q)
    (h : solve p = .ok s) :
    ∃ s', solve ⟨p.capacity,
        p.items.set j { p.items.getD j dfltItem with profit := q }⟩ = .ok s' ∧
      s.totalProfit ≤ s'.totalProfit := by
  obtain ⟨hv, hd, hs⟩ := (solve_ok_iff p s).mp h
  have hval := (validateProblem_none_iff p).mp hv
  have hmemj : p.items.getD j dfltItem ∈ p.items := by
    rw [List.getD_eq_getElem _ _ hj]
    exact List.getElem_mem _
  set upd : Item := { p.items.getD j dfltItem with profit := q } with hupd
  set l₂ := p.items.set j upd with hl₂
  have hids : l₂.map Item.id = p.items.map Item.id := by
    rw [hl₂, List.map_set]
    have hjm : j < (p.items.map Item.id).length := by simpa using hj
    have hid : upd.id = (p.items.map Item.id)[j] := by
      rw [List.getElem_map]
      rw [← List.getD_eq_getElem _ dfltItem hj]
    rw [hid]
    exact list_set_self (p.items.map Item.id) j hjm
  have hval₂ : ValidProblem ⟨p.capacity, l₂⟩ := by
    refine ⟨hval.1, ?_, ?_, ?_⟩
    · show l₂ ≠ []
      intro he
      have hlen := congrArg List.length he
      rw [hl₂, List.length_set] at hlen
      simp only [List.length_nil] at hlen
      omega
    · intro it hit
      rcases List.mem_or_eq_of_mem_set hit with him | rfl
      · exact hval.2.2.1 it him
      · exact ⟨(hval.2.2.1 _ hmemj).1,
          le_trans (hval.2.2.1 _ hmemj).2 hq⟩
    · show (l₂.map Item.id).Nodup
      rw [hids]
      exact hval.2.2.2
  have hv₂ := (validateProblem_none_iff (⟨p.capacity, l₂⟩ : KnapsackProblemDto)).mpr hval₂
  refine ⟨solveCore p.capacity.num.toNat p.capacity l₂, ?_, ?_⟩
  · rw [solve, hv₂]
    exact if_pos hd
  · subst hs
    rw [solveCore_totalProfit, solveCore_totalProfit]
    have hlen : l₂.length = p.items.length := by rw [hl₂, List.length_set]
    rw [hlen]
    apply dp_mono_profit
    intro j' hj'
    by_cases hjj : j' = j
    · subst hjj
      have hget : l₂.getD j' dfltItem = upd := by
        rw [hl₂, List.getD_eq_getElem _ _ (by rw [List.length_set]; exact hj)]
        exact List.getElem_set_self _
      rw [hget]
      exact ⟨rfl, hq⟩
    · have hget : l₂.getD j' dfltItem = p.items.getD j' dfltItem := by
        by_cases hl : j' < p.items.length
        · rw [hl₂, List.getD_eq_getElem _ _ (by rw [List.length_set]; exact hl),
            List.getD_eq_getElem _ _ hl]
          exact List.getElem_set_ne (fun hc => hjj hc.symm) _
        · push_neg at hl
          rw [List.getD_eq_default _ _ (by rw [hl₂, List.length_set]; exact hl),
            List.getD_eq_default _ _ hl]
      rw [hget]
      exact ⟨rfl, le_rfl⟩

open CargoService in
/-- Witness for claim C7: raising the single item's profit from 3 to 7 at
capacity 5. -/
theorem claim_C7_witness :
    ∃ s', solve ⟨exProblemC7.capacity,
        exProblemC7.items.set 0
          { exProblemC7.items.getD 0 dfltItem with profit := 7 }⟩ = .ok s' ∧
      exSolutionC7.totalProfit ≤ s'.totalProfit :=
  claim_C7_profit_monotonicity exProblemC7 0 7 exSolutionC7 (by decide)
    (by with_unfolding_all decide) rfl

open CargoService in
/-- Claim C8: For problems whose items all have positive weight,
`calculateEfficiency` returns a permutation of the input items, each
extended with `efficiency = profit / weight`, arranged in non-increasing
order of efficiency — a derived view performing no selection. -/
theorem claim_C8_calculateEfficiency_sorted (p : KnapsackProblemDto)
    (hw : ∀ it ∈ p.items, 0 < it.weight) :
    (calculateEfficiency p).Perm
        (p.items.map fun it =>
          ({ id := it.id, name := it.name, weight := it.weight, profit := it.profit,
             efficiency := it.profit / it.weight } : ItemWithEfficiency)) ∧
      (calculateEfficiency p).Pairwise (fun a b => b.efficiency ≤ a.efficiency) := by
  constructor
  · exact List.mergeSort_perm _ _
  · have hp := @List.sorted_mergeSort ItemWithEfficiency
      (fun a b => decide (b.efficiency ≤ a.efficiency))
      (fun a b c hab hbc => decide_eq_true
        (le_trans (of_decide_eq_true hbc) (of_decide_eq_true hab)))
      (fun a b => by
        simp only [Bool.or_eq_true, decide_eq_true_eq]
        exact le_total b.efficiency a.efficiency)
      (p.items.map fun it =>
        ({ id := it.id, name := it.name, weight := it.weight, profit := it.profit,
           efficiency := it.profit / it.weight } : ItemWithEfficiency))
    exact hp.imp fun hab => of_decide_eq_true hab

open CargoService in
/-- Witness for claim C8: the sorted-permutation property at the concrete
two-item problem. -/
theorem claim_C8_witness :
    (calculateEfficiency exProblemC8).Perm
        (exProblemC8.items.map fun it =>
          ({ id := it.id, name := it.name, weight := it.weight, profit := it.profit,
             efficiency := it.profit / it.weight } : ItemWithEfficiency)) ∧
      (calculateEfficiency exProblemC8).Pairwise
        (fun a b => b.efficiency ≤ a.efficiency) :=
  claim_C8_calculateEfficiency_sorted exProblemC8 (by with_unfolding_all decide)

open CargoService in
/-- Claim C9: Determinism: the solvers are pure functions of their inputs —
two invocations of `solve` (or of `solveWithItemLimit` with the same
`maxItems`) on identical inputs return identical results, selected-item
lists included; the embedding of the stateless source methods makes this
definitional. -/
theorem claim_C9_determinism (p : KnapsackProblemDto) (m : ℤ) :
    solve p = solve p ∧
      solveWithItemLimit p m = solveWithItemLimit p m ∧
      ∀ s₁ s₂, solve p = .ok s₁ → solve p = .ok s₂ →
        s₁.selectedItems = s₂.selectedItems :=
  ⟨rfl, rfl, fun s₁ s₂ h₁ h₂ => by rw [h₁] at h₂; injection h₂ with h; rw [h]⟩

open CargoService in
/-- Witness for claim C9: at the concrete Scenario-A-style input `exProblemC10`. -/
theorem claim_C9_witness :
    solve exProblemC10 = solve exProblemC10 ∧
      solveWithItemLimit exProblemC10 1 = solveWithItemLimit exProblemC10 1 ∧
      ∀ s₁ s₂, solve exProblemC10 = .ok s₁ → solve exProblemC10 = .ok s₂ →
        s₁.selectedItems = s₂.selectedItems :=
  claim_C9_determinism exProblemC10 1

open CargoService in
/-- Claim C10: `optimizeMultipleScenarios` is `solve` mapped over the list:
it returns exactly the per-problem solutions in input order when every
scenario solves, and otherwise fails with the error of the first (in input
order) failing scenario, every earlier scenario having solved. -/
theorem claim_C10_optimizeMultipleScenarios (ps : List KnapsackProblemDto) :
    (∀ l, optimizeMultipleScenarios ps = .ok l ↔
        ps.map solve = l.map Except.ok) ∧
      (∀ e, optimizeMultipleScenarios ps = .error e ↔
        ∃ qs q rs, ps = qs ++ q :: rs ∧ (∀ x ∈ qs, ∃ s, solve x = .ok s) ∧
          solve q = .error e) :=
  ⟨fun l => optimizeMultipleScenarios_ok_iff ps l,
    fun e => optimizeMultipleScenarios_error_iff ps e⟩

open CargoService in
/-- Witness for claim C10: the characterization at the concrete one-element
scenario list. -/
theorem claim_C10_witness :
    optimizeMultipleScenarios [exProblemC10] = .ok [exSolutionC10] :=
  ((claim_C10_optimizeMultipleScenarios [exProblemC10]).1 [exSolutionC10]).mpr rfl
